import Mathlib

/-!
Shallow embedding of the crypto-backtest repository: the two backtest
script variants (`exploders_backtest_v2.py` and `exploders_backtest_v3.py`).
Numbers are embedded as exact rationals; pandas "NaN / undefined" cells of
derived columns are embedded as `Option ℚ`; calendar days are embedded as
`Nat` day numbers (consecutive integers, one per calendar day).
-/

namespace CryptoBacktest

/-- Shared module-level parameters (identical in both script variants). -/
def MCAP_MIN : ℚ := 2000000

/-- Upper market-cap bound. -/
def MCAP_MAX : ℚ := 100000000

/-- Minimum volume multiple for confirmation (`VOL_MULT_MIN = 2.0`). -/
def VOL_MULT_MIN : ℚ := 2

/-- One-day pump threshold (`ONE_DAY_PUMP = 2.0`). -/
def ONE_DAY_PUMP : ℚ := 2

/-- Two-day pump threshold (`TWO_DAY_PUMP = 2.0`). -/
def TWO_DAY_PUMP : ℚ := 2

/-- Risk fraction per new position (`RISK_PCT = 0.02`). -/
def RISK_PCT : ℚ := 1/50

/-- Per-side fee fraction (`FEE_PER_SIDE = 0.005`). -/
def FEE_PER_SIDE : ℚ := 1/200

/-- Concurrency cap on open positions (`MAX_CONCURRENT = 5`). -/
def MAX_CONCURRENT : Nat := 5

/-- ATR window length (`ATR_LEN = 14`). -/
def ATR_LEN : Nat := 14

/-- Stop distance multiple of ATR (`ATR_MULT_STOP = 3.0`). -/
def ATR_MULT_STOP : ℚ := 3

/-- Fixed holding period in days (`HARD_HOLD_DAYS = 10`). -/
def HARD_HOLD_DAYS : Nat := 10

/-- Python list slicing `lst[:k]` for an `Int` bound `k`: a nonnegative `k`
keeps the first `k` elements, a negative `k` drops the last `|k|` elements
(clipped at the empty list, which `Nat` subtraction gives for free). -/
def pyTake {α : Type} (k : Int) (l : List α) : List α :=
  if 0 ≤ k then l.take k.toNat else l.take (l.length - (-k).toNat)

/-- A candidate entry as built by `process_coin` (the per-coin dict appended
to `entries`): entry date, coin id, entry price, stop price, ATR at entry,
volume multiple at entry. -/
structure Candidate where
  date : Nat
  coin : String
  entry_px : ℚ
  stop : ℚ
  atr : ℚ
  vol_mult : ℚ
deriving DecidableEq

/-- A closed-trade record (`trades.append({...})` in both variants). -/
structure Trade where
  coin : String
  entry_date : Nat
  exit_date : Nat
  pnl : ℚ
  reason : String
deriving DecidableEq

/-! ### The v3 portfolio simulator (`exploders_backtest_v3.py`, `backtest`) -/

/-- An open position of the v3 simulator (the dict appended to
`open_positions` at v3 line 237). -/
structure PositionV3 where
  coin : String
  entry_date : Nat
  entry_px : ℚ
  qty : ℚ
  bars_held : Nat
deriving DecidableEq

/-- The v3 simulator's mutable state. -/
structure SimStateV3 where
  equity : ℚ
  open_positions : List PositionV3
  trades : List Trade
  curve : List (Nat × ℚ)
deriving DecidableEq

/-- Initial simulator state: `equity = 100.0`, nothing open, empty logs. -/
def initStateV3 : SimStateV3 :=
  { equity := 100, open_positions := [], trades := [], curve := [] }

/-- Exit P&L formula of v3 (line 243): `pnl = pos["entry_px"] * 0.1 * pos["qty"]`. -/
def exitPnlV3 (entry_px qty : ℚ) : ℚ := entry_px * (1/10) * qty

/-- Admission of one candidate in v3 (lines 234–237): `risk = entry_px - stop`;
`qty = (equity * RISK_PCT) / risk if risk > 0 else 0`; skip if `qty <= 0`. -/
def mkPositionV3 (equity : ℚ) (d : Nat) (ent : Candidate) : Option PositionV3 :=
  let risk := ent.entry_px - ent.stop
  let qty : ℚ := if 0 < risk then equity * RISK_PCT / risk else 0
  if qty ≤ 0 then none
  else some { coin := ent.coin, entry_date := d, entry_px := ent.entry_px,
              qty := qty, bars_held := 0 }

/-- The v3 exit loop (lines 239–248): increment every position's
`bars_held`; a position with `bars_held >= HARD_HOLD_DAYS` exits at the
fixed payoff, adding its P&L to equity and a `"time"` trade to the log;
the others stay open. Returns (still_open, equity, today's trades). -/
def processExitsV3 (d : Nat) : List PositionV3 → ℚ → List PositionV3 × ℚ × List Trade
  | [], eq => ([], eq, [])
  | pos :: rest, eq =>
    let pos' : PositionV3 := { pos with bars_held := pos.bars_held + 1 }
    if HARD_HOLD_DAYS ≤ pos'.bars_held then
      let pnl := exitPnlV3 pos'.entry_px pos'.qty
      let r := processExitsV3 d rest (eq + pnl)
      (r.1, r.2.1,
        { coin := pos'.coin, entry_date := pos'.entry_date, exit_date := d,
          pnl := pnl, reason := "time" } :: r.2.2)
    else
      let r := processExitsV3 d rest eq
      (pos' :: r.1, r.2.1, r.2.2)

/-- One simulated day of v3 (lines 230–249): collect today's candidates in
input order (v3 does not sort them), admit at most
`MAX_CONCURRENT - |open_positions|` of them, run the exit loop, and append
the day's equity point. -/
def stepV3 (entries : List Candidate) (st : SimStateV3) (d : Nat) : SimStateV3 :=
  let todays := entries.filter (fun e => e.date == d)
  let slots : Int := (MAX_CONCURRENT : Int) - st.open_positions.length
  let opened := st.open_positions ++ (pyTake slots todays).filterMap (mkPositionV3 st.equity d)
  let r := processExitsV3 d opened st.equity
  { equity := r.2.1, open_positions := r.1,
    trades := st.trades ++ r.2.2, curve := st.curve ++ [(d, r.2.1)] }

/-- The v3 day loop (lines 225–249). In v3 the whole loop — including the
equity-curve appends — sits under `if not entries_df.empty:`, so an empty
candidate input yields the initial state with an empty curve. -/
def backtestV3 (entries : List Candidate) (dates : List Nat) : SimStateV3 :=
  if entries.isEmpty then initStateV3
  else dates.foldl (stepV3 entries) initStateV3

/-! ### The v2 portfolio simulator (`exploders_backtest_v2.py`, `backtest`) -/

/-- An open position of the v2 simulator (the dict appended to
`open_positions` at v2 lines 189–199). -/
structure PositionV2 where
  coin : String
  entry_date : Nat
  entry_px : ℚ
  stop : ℚ
  trail_ref : ℚ
  atr : ℚ
  qty : ℚ
  max_hold : Nat
  bars_held : Nat
deriving DecidableEq

/-- The v2 simulator's mutable state. -/
structure SimStateV2 where
  equity : ℚ
  open_positions : List PositionV2
  trades : List Trade
  curve : List (Nat × ℚ)
deriving DecidableEq

/-- Initial v2 simulator state: `equity = 100.0`, nothing open, empty logs. -/
def initStateV2 : SimStateV2 :=
  { equity := 100, open_positions := [], trades := [], curve := [] }

/-- Exit P&L formula of v2 (line 204):
`pnl = (pos["entry_px"] * 1.1 - pos["entry_px"]) * pos["qty"]`. -/
def exitPnlV2 (entry_px qty : ℚ) : ℚ := (entry_px * (11/10) - entry_px) * qty

/-- Descending order on volume multiple, as used by v2's
`sort_values("vol_mult", ascending=False)`. -/
def volDesc (a b : Candidate) : Prop := b.vol_mult ≤ a.vol_mult

instance : DecidableRel volDesc := fun a b =>
  inferInstanceAs (Decidable (b.vol_mult ≤ a.vol_mult))

instance : IsTotal Candidate volDesc :=
  ⟨fun a b => (le_total b.vol_mult a.vol_mult).imp id id⟩

instance : IsTrans Candidate volDesc :=
  ⟨fun _ _ _ h1 h2 => le_trans h2 h1⟩

/-- The candidates v2 selects for admission on a day (lines 179–181): sort
today's candidates descending by volume multiple, then keep the first
`slots` of them. -/
def admittedV2 (todays : List Candidate) (slots : Int) : List Candidate :=
  pyTake slots (List.insertionSort volDesc todays)

/-- Admission of one candidate in v2 (lines 182–199): skip if
`risk_per_unit <= 0`; `qty = (equity * RISK_PCT) / risk_per_unit`; skip if
`qty <= 0`. -/
def mkPositionV2 (equity : ℚ) (d : Nat) (ent : Candidate) : Option PositionV2 :=
  let risk_per_unit := ent.entry_px - ent.stop
  if risk_per_unit ≤ 0 then none
  else
    let risk_dollars := equity * RISK_PCT
    let qty := risk_dollars / risk_per_unit
    if qty ≤ 0 then none
    else some { coin := ent.coin, entry_date := d, entry_px := ent.entry_px,
                stop := ent.stop, trail_ref := ent.entry_px, atr := ent.atr,
                qty := qty, max_hold := HARD_HOLD_DAYS, bars_held := 0 }

/-- The v2 exit loop (lines 200–209): like v3's but the threshold is the
stored `max_hold` field and the payoff is `exitPnlV2`. -/
def processExitsV2 (d : Nat) : List PositionV2 → ℚ → List PositionV2 × ℚ × List Trade
  | [], eq => ([], eq, [])
  | pos :: rest, eq =>
    let pos' : PositionV2 := { pos with bars_held := pos.bars_held + 1 }
    if pos'.max_hold ≤ pos'.bars_held then
      let pnl := exitPnlV2 pos'.entry_px pos'.qty
      let r := processExitsV2 d rest (eq + pnl)
      (r.1, r.2.1,
        { coin := pos'.coin, entry_date := pos'.entry_date, exit_date := d,
          pnl := pnl, reason := "time" } :: r.2.2)
    else
      let r := processExitsV2 d rest eq
      (pos' :: r.1, r.2.1, r.2.2)

/-- One simulated day of v2 (lines 176–210): collect today's candidates,
rank them descending by volume multiple, admit at most
`MAX_CONCURRENT - |open_positions|` top-ranked ones, run the exit loop, and
append the day's equity point. -/
def stepV2 (entries : List Candidate) (st : SimStateV2) (d : Nat) : SimStateV2 :=
  let todays := entries.filter (fun e => e.date == d)
  let slots : Int := (MAX_CONCURRENT : Int) - st.open_positions.length
  let opened := st.open_positions ++ (admittedV2 todays slots).filterMap (mkPositionV2 st.equity d)
  let r := processExitsV2 d opened st.equity
  { equity := r.2.1, open_positions := r.1,
    trades := st.trades ++ r.2.2, curve := st.curve ++ [(d, r.2.1)] }

/-- The v2 day loop (lines 168–210): runs over every day of the window
unconditionally (no emptiness guard, unlike v3). -/
def backtestV2 (entries : List Candidate) (dates : List Nat) : SimStateV2 :=
  dates.foldl (stepV2 entries) initStateV2

/-- The simulated date window as consecutive day numbers
`start, start+1, …, start+n-1` (`pd.date_range(START_DT, END_DT, freq="D")`). -/
def window (start n : Nat) : List Nat := List.range' start n

/-! ### The derived daily series (`to_daily_df`) and the per-coin pipeline -/

/-- A derived daily series (the DataFrame returned by `to_daily_df`): one
row per calendar day, addressed by row index. Derived columns (`ret1`,
`ret2`, `atr`, `vol_ma10`) and the market cap may be undefined (pandas
NaN), embedded as `Option ℚ`. Volumes are embedded as plain rationals
(every volume sample in the raw data is a number; see `volCol`). -/
structure Df where
  len : Nat
  date : Nat → Nat
  close : Nat → ℚ
  mcap : Nat → Option ℚ
  vol : Nat → ℚ
  ret1 : Nat → Option ℚ
  ret2 : Nat → Option ℚ
  atr : Nat → Option ℚ
  vol_ma10 : Nat → Option ℚ

/-- Signal condition at row `i` (v3 lines 124–126, v2 lines 101–103): the
1-day or 2-day gross return meets the pump threshold; an undefined return
counts as `0`. -/
def sigCond (df : Df) (i : Nat) : Bool :=
  let one_day : ℚ := match df.ret1 i with | some r => 1 + r | none => 0
  let two_day : ℚ := match df.ret2 i with | some r => 1 + r | none => 0
  decide (ONE_DAY_PUMP ≤ one_day ∨ TWO_DAY_PUMP ≤ two_day)

/-- `find_signals` (v3 lines 120–128, v2 lines 98–105): the row indices in
`range(2, len(df))` satisfying the pump condition, in order. -/
def find_signals (df : Df) : List Nat :=
  (List.range' 2 (df.len - 2)).filter (sigCond df)

/-- Confirmation condition at row `j` (v3 lines 134–139, v2 lines 109–114),
written as the negations of the code's three skip conditions: price
continuation over the previous row, a defined non-zero 10-day average
volume, and a volume multiple of at least `VOL_MULT_MIN`. -/
def confCond (df : Df) (j : Nat) : Bool :=
  if df.close j ≤ df.close (j - 1) then false
  else match df.vol_ma10 j with
    | none => false
    | some ma => if ma = 0 then false else decide (VOL_MULT_MIN ≤ df.vol j / ma)

/-- `first_confirmation_idx` (v3 lines 131–141, v2 lines 107–116): the
first `j` in `range(sig_idx + 1, min(sig_idx + 6, len(df)))` passing the
confirmation condition, else `None`. -/
def first_confirmation_idx (df : Df) (sig_idx : Nat) : Option Nat :=
  (List.range' (sig_idx + 1) (min (sig_idx + 6) df.len - (sig_idx + 1))).find? (confCond df)

/-- The body of `process_coin`'s per-signal loop (v3 lines 155–180, v2
lines 129–154): market-cap band check at the signal row, confirmation,
window check of the entry date, defined non-zero ATR, fee-inflated entry
price, stop construction, and the stop sanity filter. Returns the
candidate, or `none` if any filter rejects. The `vol_mult` guard mirrors
`... if df.loc[cidx, "vol_ma10"] else 0.0` (a confirmed row always has a
defined non-zero `vol_ma10`, so the `0` branches are unreachable here). -/
def candidateAt (startDay endDay : Nat) (cid : String) (df : Df) (sidx : Nat) :
    Option Candidate :=
  match df.mcap sidx with
  | none => none
  | some mcap =>
    if ¬ (MCAP_MIN ≤ mcap ∧ mcap ≤ MCAP_MAX) then none
    else match first_confirmation_idx df sidx with
      | none => none
      | some cidx =>
        let entry_date := df.date cidx
        if ¬ (startDay ≤ entry_date ∧ entry_date ≤ endDay) then none
        else match df.atr cidx with
          | none => none
          | some atr =>
            if atr = 0 then none
            else
              let entry_px := df.close cidx * (1 + FEE_PER_SIDE)
              let raw_stop := entry_px - max (ATR_MULT_STOP * atr) (1/4 * entry_px)
              if raw_stop ≤ 0 ∨ entry_px ≤ raw_stop then none
              else
                let vol_mult : ℚ := match df.vol_ma10 cidx with
                  | some ma => if ma = 0 then 0 else df.vol cidx / ma
                  | none => 0
                some { date := entry_date, coin := cid, entry_px := entry_px,
                       stop := raw_stop, atr := atr, vol_mult := vol_mult }

/-- The candidate list `process_coin` emits for one coin (v3 lines
153–181): the per-signal loop over `find_signals`, collecting the
surviving candidates. -/
def process_coin_entries (startDay endDay : Nat) (cid : String) (df : Df) :
    List Candidate :=
  (find_signals df).filterMap (candidateAt startDay endDay cid df)

/-! #### `to_daily_df`: from a raw series to a `Df` -/

/-- Milliseconds in a calendar day; `pd.to_datetime(ts, unit="ms",
utc=True).normalize()` maps a timestamp to UTC day number `ts / MS_PER_DAY`. -/
def MS_PER_DAY : Nat := 86400000

/-- One grouped daily row before derived columns are added. -/
structure DailyRow where
  date : Nat
  close : ℚ
  mcap : Option ℚ
  vol : ℚ
deriving DecidableEq, Inhabited

/-- The `_safe` column fill of `to_daily_df` for the market-cap channel:
second components truncated to the row count, or all-NaN when the array is
absent/empty. -/
def safeCol (n : Nat) (arr : List (Nat × ℚ)) : List (Option ℚ) :=
  if arr.isEmpty then List.replicate n none
  else (arr.map (fun x => some x.2)).take n

/-- The `_safe` column fill for the volume channel. An absent array is
NaN-filled in the code; a NaN volume makes every trailing `vol_ma10`
NaN, so no confirmation ever fires on it — we embed that fill as `0`,
which likewise never confirms (`vol_ma10 = 0` is skipped). Channels are
assumed index-aligned with `prices`, as the API returns them (pandas
raises on a length mismatch). -/
def volCol (n : Nat) (arr : List (Nat × ℚ)) : List ℚ :=
  if arr.isEmpty then List.replicate n 0
  else (arr.map (fun x => x.2)).take n

/-- The raw row table of `to_daily_df` before grouping (v3 lines 101–106):
timestamps normalized to UTC day numbers, with the market-cap and volume
columns filled by the `_safe` rule. -/
def rawRows (prices mcaps vols : List (Nat × ℚ)) : List DailyRow :=
  let n := prices.length
  (prices.zip ((safeCol n mcaps).zip (volCol n vols))).map
    (fun x => { date := x.1.1 / MS_PER_DAY, close := x.1.2,
                mcap := x.2.1, vol := x.2.2 })

/-- The sorted distinct day numbers of a row table (pandas `groupby` sorts
its keys ascending). -/
def groupDays (rows : List DailyRow) : List Nat :=
  List.insertionSort (· ≤ ·) (rows.map (fun r => r.date)).dedup

/-- `groupby("date", as_index=False).agg({... "last" ...})` (v3 line 107):
one row per distinct day, keeping the last sample of each day, days
ascending. -/
def groupLast (rows : List DailyRow) : List DailyRow :=
  (groupDays rows).filterMap (fun d => (rows.filter (fun r => r.date == d)).getLast?)

/-- The window filter of `to_daily_df` (v3 lines 108–109) applied to the
grouped rows: keep days in `[startDay, endDay]`. -/
def windowRows (startDay endDay : Nat) (rows : List DailyRow) : List DailyRow :=
  (groupLast rows).filter (fun r => decide (startDay ≤ r.date) && decide (r.date ≤ endDay))

/-- Derived columns over the grouped, windowed rows (v3 lines 112–116):
`pct_change`, `pct_change(2)`, `diff().abs()`, and rolling means whose
`min_periods` equals the window length, so a rolling value is defined
exactly when its whole trailing window is populated by defined values. -/
def mkDf (rows : List DailyRow) : Df :=
  let close := fun i => (rows.getD i default).close
  let vol := fun i => (rows.getD i default).vol
  { len := rows.length
    date := fun i => (rows.getD i default).date
    close := close
    mcap := fun i => (rows.getD i default).mcap
    vol := vol
    ret1 := fun i => if i = 0 then none else some (close i / close (i - 1) - 1)
    ret2 := fun i => if i ≤ 1 then none else some (close i / close (i - 2) - 1)
    atr := fun i =>
      if ATR_LEN ≤ i then
        some ((((List.range' (i + 1 - ATR_LEN) ATR_LEN).map
          (fun k => |close k - close (k - 1)|)).sum) / (ATR_LEN : ℚ))
      else none
    vol_ma10 := fun i =>
      if 9 ≤ i then some ((((List.range' (i - 9) 10).map vol).sum) / 10)
      else none }

/-- `to_daily_df` (v3 lines 97–117, v2 lines 71–96): normalize to calendar
days, keep the last sample per day, restrict to the window; reject with
"insufficient data" (`None`) when fewer than `ATR_LEN + 5` rows remain,
else build the derived series. -/
def to_daily_df (startDay endDay : Nat) (prices mcaps vols : List (Nat × ℚ)) :
    Option Df :=
  let wr := windowRows startDay endDay (rawRows prices mcaps vols)
  if wr.length < ATR_LEN + 5 then none else some (mkDf wr)

/-! ### Binary64 semantics of the exit P&L expressions

The scripts evaluate the exit P&L in IEEE-754 double precision. The exact
rationals `exitPnlV2`/`exitPnlV3` used by the simulator models coincide
identically, but the float evaluations of the two expressions do not; the
definitions below state correct binary64 rounding as a relation so that
the float results of the two expressions can be compared. -/

/-- A value representable as an IEEE-754 binary64 float: an integer
significand of magnitude below `2^53` times a power of two. (The format's
finite exponent range is not modelled; in the binades involved here the
two notions coincide.) -/
def Representable (y : ℚ) : Prop :=
  ∃ m e : ℤ, |m| < 2^53 ∧ y = (m : ℚ) * 2^e

/-- `y` is a correctly rounded binary64 result of the exact value `x`:
`y` is representable and no representable value is closer to `x`
(round-to-nearest; the tie rule never matters below because no ties
occur). -/
def RoundsTo (x y : ℚ) : Prop :=
  Representable y ∧ ∀ z, Representable z → |y - x| ≤ |z - x|

/-- The binary64 value of the source literal `1.1`: `4953959590107546 / 2^52`. -/
def fl1_1 : ℚ := 4953959590107546/4503599627370496

/-- The binary64 value of the source literal `0.1`: `7205759403792794 / 2^56`
(`= 3602879701896397 / 2^55`). -/
def fl0_1 : ℚ := 7205759403792794/72057594037927936

/-- The value v2's float evaluation of the exit P&L yields at entry price 1
and quantity 1: `fl1_1 - 1 = 450359962737050 / 2^52` (printed
`0.10000000000000009`). -/
def pnlV2f64 : ℚ := 450359962737050/4503599627370496

/-- The binary64 evaluation of v2's exit P&L expression
`(entry_px * 1.1 - entry_px) * qty` (v2 line 204): the literal becomes the
double nearest `11/10` and every arithmetic operation correctly rounds its
exact result. -/
def ExitPnlV2F64 (e q res : ℚ) : Prop :=
  ∃ c t1 t2, RoundsTo (11/10) c ∧ RoundsTo (e * c) t1 ∧
    RoundsTo (t1 - e) t2 ∧ RoundsTo (t2 * q) res

/-- The binary64 evaluation of v3's exit P&L expression
`entry_px * 0.1 * qty` (v3 line 243), associated as `(e * 0.1) * q`. -/
def ExitPnlV3F64 (e q res : ℚ) : Prop :=
  ∃ c t1, RoundsTo (1/10) c ∧ RoundsTo (e * c) t1 ∧ RoundsTo (t1 * q) res

/-- The confirmation condition in the spec's wording: price continuation
over the previous row, and a defined non-zero 10-day average volume whose
volume multiple meets the threshold. -/
def confSpecCond (df : Df) (j : Nat) : Prop :=
  df.close (j - 1) < df.close j ∧
    ∃ ma, df.vol_ma10 j = some ma ∧ ma ≠ 0 ∧ VOL_MULT_MIN ≤ df.vol j / ma

/-! ### Concrete data used to instantiate theorems -/

/-- A small hand-built derived series: closes `[1, 1, 1, 2.2, 2.3, 2.4]`,
a day-4 volume of `250` against a 10-day average volume of `100` (the
doubling on day 3 gives `ret1 = 1.2`), market cap inside the band, a
defined non-zero ATR. -/
def exampleDf : Df where
  len := 6
  date i := i
  close i := if i = 3 then 22/10 else if i = 4 then 23/10 else if i = 5 then 24/10 else 1
  mcap _ := some 5000000
  vol i := if i = 4 then 250 else 100
  ret1 i := if i = 0 then none else if i = 3 then some (12/10) else some 0
  ret2 i := if i ≤ 1 then none else some 0
  atr _ := some (1/2)
  vol_ma10 i := if 3 ≤ i then some 100 else none

/-- The single candidate the pipeline emits from `exampleDf`:
entry at row 4, entry price `2.3 * 1.005`, stop `entry - 3 * ATR`,
volume multiple `2.5`. -/
def exampleCandidate : Candidate :=
  { date := 4, coin := "exm", entry_px := 4623/2000, stop := 1623/2000,
    atr := 1/2, vol_mult := 5/2 }

/-- One well-formed candidate entry (stop strictly between 0 and entry). -/
def exampleEntries : List Candidate :=
  [{ date := 0, coin := "a", entry_px := 10, stop := 5, atr := 1, vol_mult := 3 }]

/-- Six same-day candidates: the first five with volume multiple `3.0`,
the last one (`"f"`) with the unique highest volume multiple `5.0`. -/
def c1CexEntries : List Candidate :=
  [{ date := 0, coin := "a", entry_px := 10, stop := 5, atr := 1, vol_mult := 3 },
   { date := 0, coin := "b", entry_px := 10, stop := 5, atr := 1, vol_mult := 3 },
   { date := 0, coin := "c", entry_px := 10, stop := 5, atr := 1, vol_mult := 3 },
   { date := 0, coin := "d", entry_px := 10, stop := 5, atr := 1, vol_mult := 3 },
   { date := 0, coin := "e", entry_px := 10, stop := 5, atr := 1, vol_mult := 3 },
   { date := 0, coin := "f", entry_px := 10, stop := 5, atr := 1, vol_mult := 5 }]

/-- The trade the v3 simulator logs when running `exampleEntries` over a
10-day window: entry day 0, exit day 9, P&L `10 * 0.1 * 0.4`. -/
def exampleTrade : Trade :=
  { coin := "a", entry_date := 0, exit_date := 9, pnl := 2/5, reason := "time" }

/-- A same-day candidate with volume multiple `3.0`. -/
def candVol3 : Candidate :=
  { date := 1, coin := "x", entry_px := 10, stop := 5, atr := 1, vol_mult := 3 }

/-- A same-day candidate with volume multiple `5.0`. -/
def candVol5 : Candidate :=
  { date := 1, coin := "y", entry_px := 10, stop := 5, atr := 1, vol_mult := 5 }

/-- Timing invariant of the v3 simulator, indexed by the next day to
simulate: every open position has been held since its entry date (bars
held counts the entry day itself) and is at most 9 bars old, and every
logged trade exited exactly 9 days after entry. -/
def InvTimeV3 (d : Nat) (st : SimStateV3) : Prop :=
  (∀ p ∈ st.open_positions, p.entry_date + p.bars_held = d ∧ p.bars_held ≤ 9) ∧
  (∀ t ∈ st.trades, t.exit_date = t.entry_date + 9)

/-- Timing invariant of the v2 simulator (the stored `max_hold` is always
the constant holding period). -/
def InvTimeV2 (d : Nat) (st : SimStateV2) : Prop :=
  (∀ p ∈ st.open_positions,
      p.entry_date + p.bars_held = d ∧ p.bars_held ≤ 9 ∧ p.max_hold = HARD_HOLD_DAYS) ∧
  (∀ t ∈ st.trades, t.exit_date = t.entry_date + 9)

/-- Profitability invariant of the v3 simulator: equity at least the
initial 100, every open position has positive entry price and quantity,
every logged trade has positive P&L, and the equity curve is monotone and
bounded by the current equity. -/
def InvGainV3 (st : SimStateV3) : Prop :=
  100 ≤ st.equity ∧
  (∀ p ∈ st.open_positions, 0 < p.entry_px ∧ 0 < p.qty) ∧
  (∀ t ∈ st.trades, 0 < t.pnl) ∧
  st.curve.Pairwise (fun a b => a.2 ≤ b.2) ∧
  (∀ pt ∈ st.curve, 100 ≤ pt.2 ∧ pt.2 ≤ st.equity)

/-- Profitability invariant of the v2 simulator. -/
def InvGainV2 (st : SimStateV2) : Prop :=
  100 ≤ st.equity ∧
  (∀ p ∈ st.open_positions, 0 < p.entry_px ∧ 0 < p.qty) ∧
  (∀ t ∈ st.trades, 0 < t.pnl) ∧
  st.curve.Pairwise (fun a b => a.2 ≤ b.2) ∧
  (∀ pt ∈ st.curve, 100 ≤ pt.2 ∧ pt.2 ≤ st.equity)

/-! ### Shared helper lemmas -/

/-- Membership in a step-1 `range'` is the interval characterization. -/
theorem mem_range'_iff {s n m : Nat} : m ∈ List.range' s n ↔ s ≤ m ∧ m < s + n := by
  rw [List.mem_range']
  constructor
  · rintro ⟨k, hk, rfl⟩; omega
  · rintro ⟨h1, h2⟩; exact ⟨m - s, by omega, by omega⟩

/-- The signal condition, rephrased from the code's `0`-default trick into
the spec's wording: a defined return whose gross value meets the threshold. -/
theorem sigCond_iff (df : Df) (i : Nat) :
    sigCond df i = true ↔
      ((∃ r, df.ret1 i = some r ∧ ONE_DAY_PUMP ≤ 1 + r) ∨
       (∃ r, df.ret2 i = some r ∧ TWO_DAY_PUMP ≤ 1 + r)) := by
  unfold sigCond
  rcases h1 : df.ret1 i with _ | r1 <;> rcases h2 : df.ret2 i with _ | r2 <;>
    simp [ONE_DAY_PUMP, TWO_DAY_PUMP]

/-- The code's confirmation condition (negated skip chain) coincides with
the spec-worded condition. -/
theorem confCond_iff (df : Df) (j : Nat) :
    confCond df j = true ↔ confSpecCond df j := by
  unfold confCond confSpecCond
  by_cases hc : df.close j ≤ df.close (j - 1)
  · simp only [if_pos hc]
    simp [not_lt.mpr hc]
  · simp only [if_neg hc]
    rcases h : df.vol_ma10 j with _ | ma
    · simp [lt_of_not_le hc]
    · by_cases hma : ma = 0
      · subst hma
        simp [lt_of_not_le hc]
      · simp [hma, lt_of_not_le hc]

/-- `find?` over a consecutive range returns the first satisfying index:
everything in the range before the hit fails the predicate. -/
theorem find?_range'_first {p : Nat → Bool} {s n j : Nat}
    (h : (List.range' s n).find? p = some j) :
    ∀ k, s ≤ k → k < j → p k = false := by
  induction n generalizing s with
  | zero => simp at h
  | succ n ih =>
    rw [List.range'_succ] at h
    intro k hk1 hk2
    by_cases hp : p s = true
    · rw [List.find?_cons_of_pos _ hp] at h
      injection h with h
      omega
    · rw [List.find?_cons_of_neg _ hp] at h
      rcases Nat.eq_or_lt_of_le hk1 with rfl | hlt
      · simp only [Bool.not_eq_true] at hp
        exact hp
      · exact ih h k hlt hk2

/-! ### Claim theorems -/

/-- In exact rational arithmetic the two exit P&L formulas coincide
identically: the exact-value difference between the variants is zero, so
any difference in the computed values is a pure binary64 rounding effect
(established below). -/
theorem exit_pnl_formulas_agree (e q : ℚ) : exitPnlV2 e q = exitPnlV3 e q := by
  unfold exitPnlV2 exitPnlV3
  ring

/-- A representable value at least `2^52 / 2^k` in magnitude scaled view
lies on the grid with denominator `2^k`. -/
theorem representable_den_pow (k : ℕ) {z : ℚ} (hz : Representable z)
    (hlb : (2:ℚ)^52 ≤ z * 2^k) : ∃ n : ℤ, z = (n : ℚ) / 2^k := by
  obtain ⟨m, e, hm, rfl⟩ := hz
  have h2 : (2:ℚ) ≠ 0 := two_ne_zero
  have hzk : (m : ℚ) * 2^e * 2^k = (m : ℚ) * 2^(e + k) := by
    rw [zpow_add₀ h2, ← zpow_natCast (2:ℚ) k]
    ring
  by_cases he : 0 ≤ e + k
  · refine ⟨m * 2^((e + k).toNat), ?_⟩
    have ht : (((e + k).toNat : ℤ)) = e + k := Int.toNat_of_nonneg he
    rw [eq_div_iff (by positivity : ((2:ℚ)^k) ≠ 0), hzk]
    push_cast
    rw [← zpow_natCast (2:ℚ) ((e + k).toNat), ht]
  · exfalso
    push_neg at he
    have hmlt : (m : ℚ) < 2^53 := by exact_mod_cast lt_of_abs_lt hm
    have hp : (0:ℚ) < (2:ℚ)^(e + k) := zpow_pos (by norm_num) _
    have h1 : (m : ℚ) * 2^(e + k) < 2^53 * 2^(e + k) :=
      mul_lt_mul_of_pos_right hmlt hp
    have h3 : (2:ℚ)^(e + k) ≤ 2^(-1:ℤ) :=
      zpow_le_zpow_right₀ (by norm_num) (by omega)
    have h4 : (2:ℚ)^53 * 2^(e + k) ≤ 2^53 * 2^(-1:ℤ) := by
      have : (0:ℚ) ≤ 2^53 := by positivity
      exact mul_le_mul_of_nonneg_left h3 this
    have h5 : (2:ℚ)^53 * 2^(-1:ℤ) = 2^52 := by norm_num [zpow_neg]
    rw [hzk] at hlb
    linarith

/-- Every integer grid point with denominator `2^52` is at least as far
from `11/10` as `1/11258999068426240` (`= 4 / (10 * 2^52)`). -/
theorem grid_dist_fl1_1 (n : ℤ) :
    (1:ℚ)/11258999068426240 ≤ |(n : ℚ)/4503599627370496 - 11/10| := by
  have h1 : (n : ℚ)/4503599627370496 - 11/10
      = ((10*n - 49539595901075456 : ℤ) : ℚ)/45035996273704960 := by
    push_cast
    ring
  rw [h1, abs_div, abs_of_pos (show (0:ℚ) < 45035996273704960 by norm_num)]
  have h2 : (4:ℤ) ≤ |10*n - 49539595901075456| := by
    rcases le_or_lt 0 (10*n - 49539595901075456) with h | h
    · rw [abs_of_nonneg h]; omega
    · rw [abs_of_neg h]; omega
  have h3 : (4:ℚ) ≤ |((10*n - 49539595901075456 : ℤ) : ℚ)| := by
    rw [← Int.cast_abs]
    exact_mod_cast h2
  rw [show (1:ℚ)/11258999068426240 = 4/45035996273704960 by norm_num]
  exact (div_le_div_iff_of_pos_right (by norm_num)).mpr h3

/-- Every integer grid point with denominator `2^56` is at least as far
from `1/10` as `1/180143985094819840` (`= 4 / (10 * 2^56)`). -/
theorem grid_dist_fl0_1 (n : ℤ) :
    (1:ℚ)/180143985094819840 ≤ |(n : ℚ)/72057594037927936 - 1/10| := by
  have h1 : (n : ℚ)/72057594037927936 - 1/10
      = ((10*n - 72057594037927936 : ℤ) : ℚ)/720575940379279360 := by
    push_cast
    ring
  rw [h1, abs_div, abs_of_pos (show (0:ℚ) < 720575940379279360 by norm_num)]
  have h2 : (4:ℤ) ≤ |10*n - 72057594037927936| := by
    rcases le_or_lt 0 (10*n - 72057594037927936) with h | h
    · rw [abs_of_nonneg h]; omega
    · rw [abs_of_neg h]; omega
  have h3 : (4:ℚ) ≤ |((10*n - 72057594037927936 : ℤ) : ℚ)| := by
    rw [← Int.cast_abs]
    exact_mod_cast h2
  rw [show (1:ℚ)/180143985094819840 = 4/720575940379279360 by norm_num]
  exact (div_le_div_iff_of_pos_right (by norm_num)).mpr h3

/-- `fl1_1` is representable. -/
theorem representable_fl1_1 : Representable fl1_1 :=
  ⟨4953959590107546, -52, by norm_num, by norm_num [fl1_1, zpow_neg]⟩

/-- `fl0_1` is representable. -/
theorem representable_fl0_1 : Representable fl0_1 :=
  ⟨7205759403792794, -56, by norm_num, by norm_num [fl0_1, zpow_neg]⟩

/-- `pnlV2f64 = fl1_1 - 1` is representable. -/
theorem representable_pnlV2f64 : Representable pnlV2f64 :=
  ⟨450359962737050, -52, by norm_num, by norm_num [pnlV2f64, zpow_neg]⟩

/-- A representable value rounds to itself. -/
theorem roundsTo_self {x : ℚ} (h : Representable x) : RoundsTo x x :=
  ⟨h, fun z _ => by simp [abs_nonneg]⟩

/-- Rounding a representable value yields exactly that value. -/
theorem roundsTo_fixed {x y : ℚ} (hx : Representable x) (h : RoundsTo x y) :
    y = x := by
  have h0 := h.2 x hx
  simp only [sub_self, abs_zero] at h0
  have h1 : |y - x| = 0 := le_antisymm h0 (abs_nonneg _)
  rw [abs_eq_zero, sub_eq_zero] at h1
  exact h1

/-- `fl1_1` is a correctly rounded binary64 result of `11/10`. -/
theorem roundsTo_fl1_1 : RoundsTo (11/10) fl1_1 := by
  refine ⟨representable_fl1_1, fun z hz => ?_⟩
  have hd : |fl1_1 - 11/10| = 1/11258999068426240 := by norm_num [fl1_1]
  rw [hd]
  by_cases hz1 : (1:ℚ) ≤ z
  · by_cases hz2 : z < 2
    · obtain ⟨n, rfl⟩ := representable_den_pow 52 hz (by nlinarith)
      exact grid_dist_fl1_1 n
    · push_neg at hz2
      calc (1:ℚ)/11258999068426240 ≤ 9/10 := by norm_num
        _ ≤ |z - 11/10| := by
            rw [abs_of_nonneg (by linarith)]
            linarith
  · push_neg at hz1
    calc (1:ℚ)/11258999068426240 ≤ 1/10 := by norm_num
      _ ≤ |z - 11/10| := by
          rw [abs_sub_comm, abs_of_nonneg (by linarith)]
          linarith

/-- `fl0_1` is a correctly rounded binary64 result of `1/10`. -/
theorem roundsTo_fl0_1 : RoundsTo (1/10) fl0_1 := by
  refine ⟨representable_fl0_1, fun z hz => ?_⟩
  have hd : |fl0_1 - 1/10| = 1/180143985094819840 := by norm_num [fl0_1]
  rw [hd]
  by_cases hz1 : (1:ℚ)/16 ≤ z
  · by_cases hz2 : z < 1/8
    · obtain ⟨n, rfl⟩ := representable_den_pow 56 hz (by nlinarith)
      exact grid_dist_fl0_1 n
    · push_neg at hz2
      calc (1:ℚ)/180143985094819840 ≤ 1/40 := by norm_num
        _ ≤ |z - 1/10| := by
            rw [abs_of_nonneg (by linarith)]
            linarith
  · push_neg at hz1
    calc (1:ℚ)/180143985094819840 ≤ 3/80 := by norm_num
      _ ≤ |z - 1/10| := by
          rw [abs_sub_comm, abs_of_nonneg (by linarith)]
          linarith

/-- `fl1_1` is the only correctly rounded binary64 result of `11/10`. -/
theorem roundsTo_fl1_1_unique {c : ℚ} (h : RoundsTo (11/10) c) : c = fl1_1 := by
  obtain ⟨hrep, hmin⟩ := h
  have h1 := hmin fl1_1 representable_fl1_1
  have hd : |fl1_1 - 11/10| = 1/11258999068426240 := by norm_num [fl1_1]
  rw [hd] at h1
  have hb := abs_le.mp h1
  obtain ⟨n, rfl⟩ := representable_den_pow 52 hrep (by nlinarith [hb.1])
  rw [show ((2:ℚ)^52) = 4503599627370496 from by norm_num] at h1 ⊢
  have h2 : (n : ℚ)/4503599627370496 - 11/10
      = ((10*n - 49539595901075456 : ℤ) : ℚ)/45035996273704960 := by
    push_cast
    ring
  rw [h2] at h1
  rw [abs_div, abs_of_pos (show (0:ℚ) < 45035996273704960 by norm_num),
    show (1:ℚ)/11258999068426240 = 4/45035996273704960 by norm_num,
    div_le_div_iff_of_pos_right (show (0:ℚ) < 45035996273704960 by norm_num),
    ← Int.cast_abs] at h1
  have h3 : |10*n - 49539595901075456| ≤ 4 := by exact_mod_cast h1
  have h4 : n = 4953959590107546 := by
    rcases le_or_lt 0 (10*n - 49539595901075456) with h | h
    · rw [abs_of_nonneg h] at h3; omega
    · rw [abs_of_neg h] at h3; omega
  rw [h4, fl1_1]
  norm_num

/-- `fl0_1` is the only correctly rounded binary64 result of `1/10`. -/
theorem roundsTo_fl0_1_unique {c : ℚ} (h : RoundsTo (1/10) c) : c = fl0_1 := by
  obtain ⟨hrep, hmin⟩ := h
  have h1 := hmin fl0_1 representable_fl0_1
  have hd : |fl0_1 - 1/10| = 1/180143985094819840 := by norm_num [fl0_1]
  rw [hd] at h1
  have hb := abs_le.mp h1
  obtain ⟨n, rfl⟩ := representable_den_pow 56 hrep (by nlinarith [hb.1])
  rw [show ((2:ℚ)^56) = 72057594037927936 from by norm_num] at h1 ⊢
  have h2 : (n : ℚ)/72057594037927936 - 1/10
      = ((10*n - 72057594037927936 : ℤ) : ℚ)/720575940379279360 := by
    push_cast
    ring
  rw [h2] at h1
  rw [abs_div, abs_of_pos (show (0:ℚ) < 720575940379279360 by norm_num),
    show (1:ℚ)/180143985094819840 = 4/720575940379279360 by norm_num,
    div_le_div_iff_of_pos_right (show (0:ℚ) < 720575940379279360 by norm_num),
    ← Int.cast_abs] at h1
  have h3 : |10*n - 72057594037927936| ≤ 4 := by exact_mod_cast h1
  have h4 : n = 7205759403792794 := by
    rcases le_or_lt 0 (10*n - 72057594037927936) with h | h
    · rw [abs_of_nonneg h] at h3; omega
    · rw [abs_of_neg h] at h3; omega
  rw [h4, fl0_1]
  norm_num

/-- Claim C3: the two backtest variants use different payoff computations
on exit. Under binary64 float semantics — each literal converted to its
nearest double and every operation correctly rounded, as the scripts
compute — at entry price 1 and quantity 1 (exhibiting the claimed "for
some entry price and quantity") v2's `(entry_px * 1.1 - entry_px) * qty`
evaluates, uniquely, to `450359962737050/2^52` (printed
`0.10000000000000009`) while v3's `entry_px * 0.1 * qty` evaluates,
uniquely, to the `0.1` double `7205759403792794/2^56` (printed `0.1`),
and the two differ. -/
theorem exit_pnl_float64_differs :
    ExitPnlV2F64 1 1 pnlV2f64 ∧ ExitPnlV3F64 1 1 fl0_1 ∧ pnlV2f64 ≠ fl0_1 ∧
    (∀ a, ExitPnlV2F64 1 1 a → a = pnlV2f64) ∧
    (∀ b, ExitPnlV3F64 1 1 b → b = fl0_1) := by
  have hsub : fl1_1 - 1 = pnlV2f64 := by norm_num [fl1_1, pnlV2f64]
  refine ⟨⟨fl1_1, fl1_1, pnlV2f64, roundsTo_fl1_1, ?_, ?_, ?_⟩,
    ⟨fl0_1, fl0_1, roundsTo_fl0_1, ?_, ?_⟩,
    by norm_num [pnlV2f64, fl0_1], ?_, ?_⟩
  · rw [one_mul]
    exact roundsTo_self representable_fl1_1
  · rw [hsub]
    exact roundsTo_self representable_pnlV2f64
  · rw [mul_one]
    exact roundsTo_self representable_pnlV2f64
  · rw [one_mul]
    exact roundsTo_self representable_fl0_1
  · rw [mul_one]
    exact roundsTo_self representable_fl0_1
  · rintro a ⟨c, t1, t2, hc, h1, h2, h3⟩
    obtain rfl : c = fl1_1 := roundsTo_fl1_1_unique hc
    rw [one_mul] at h1
    obtain rfl : t1 = fl1_1 := roundsTo_fixed representable_fl1_1 h1
    rw [hsub] at h2
    obtain rfl : t2 = pnlV2f64 := roundsTo_fixed representable_pnlV2f64 h2
    rw [mul_one] at h3
    exact roundsTo_fixed representable_pnlV2f64 h3
  · rintro b ⟨c, t1, hc, h1, h2⟩
    obtain rfl : c = fl0_1 := roundsTo_fl0_1_unique hc
    rw [one_mul] at h1
    obtain rfl : t1 = fl0_1 := roundsTo_fixed representable_fl0_1 h1
    rw [mul_one] at h2
    exact roundsTo_fixed representable_fl0_1 h2

/-- Witness for C3: the uniqueness conjuncts applied at the two concrete
float results, their evaluation hypotheses discharged by the theorem's own
existence conjuncts. -/
theorem exit_pnl_float64_differs_witness :
    pnlV2f64 = pnlV2f64 ∧ fl0_1 = fl0_1 :=
  ⟨exit_pnl_float64_differs.2.2.2.1 pnlV2f64 exit_pnl_float64_differs.1,
   exit_pnl_float64_differs.2.2.2.2 fl0_1 exit_pnl_float64_differs.2.1⟩

/-- Claim C7: `find_signals` fires at index `i` iff `i ≥ 2`, `i` is a row
of the series, and the 1-day or 2-day gross return is defined and at least
the doubling threshold `2.0` (an undefined return never fires); in
particular no signal is produced at index `0` or `1`. -/
theorem find_signals_fires_iff (df : Df) (i : Nat) :
    i ∈ find_signals df ↔
      2 ≤ i ∧ i < df.len ∧
        ((∃ r, df.ret1 i = some r ∧ ONE_DAY_PUMP ≤ 1 + r) ∨
         (∃ r, df.ret2 i = some r ∧ TWO_DAY_PUMP ≤ 1 + r)) := by
  unfold find_signals
  rw [List.mem_filter, mem_range'_iff, sigCond_iff]
  constructor
  · rintro ⟨⟨h1, h2⟩, h3⟩
    exact ⟨h1, by omega, h3⟩
  · rintro ⟨h1, h2, h3⟩
    exact ⟨⟨h1, by omega⟩, h3⟩

/-- Claim C9: `to_daily_df` returns "insufficient data" (`None`) exactly
when fewer than `ATR_LEN + 5 = 19` valid days remain after normalizing the
raw samples to calendar days (last sample per day) and filtering to the
date window; a series with at least `19` windowed days is never rejected
for length. -/
theorem to_daily_df_insufficient_iff (startDay endDay : Nat)
    (prices mcaps vols : List (Nat × ℚ)) :
    to_daily_df startDay endDay prices mcaps vols = none ↔
      (windowRows startDay endDay (rawRows prices mcaps vols)).length < ATR_LEN + 5 := by
  by_cases h : (windowRows startDay endDay (rawRows prices mcaps vols)).length < ATR_LEN + 5 <;>
    simp [to_daily_df, h]

/-- Claim C6: for every derived series and signal index `s`,
`first_confirmation_idx` returns the first index `j` in `(s, s+5]` (and
inside the series) with price continuation and a defined non-zero 10-day
average volume whose volume multiple is at least `2.0`; it returns
"unconfirmed" (`None`) when no index of the window qualifies; and it never
returns an index outside `(s, s+5]`. -/
theorem first_confirmation_spec (df : Df) (s j : Nat) :
    (first_confirmation_idx df s = some j →
      s < j ∧ j ≤ s + 5 ∧ j < df.len ∧ confSpecCond df j ∧
        ∀ k, s < k → k < j → ¬ confSpecCond df k) ∧
    (first_confirmation_idx df s = none →
      ∀ k, s < k → k ≤ s + 5 → k < df.len → ¬ confSpecCond df k) := by
  constructor
  · intro h
    unfold first_confirmation_idx at h
    have hmem := List.mem_of_find?_eq_some h
    rw [mem_range'_iff] at hmem
    have hcond := List.find?_some h
    refine ⟨by omega, by omega, by omega, (confCond_iff df j).mp hcond, ?_⟩
    intro k hk1 hk2
    have hk := find?_range'_first h k (by omega) hk2
    rw [← confCond_iff df k]
    simp [hk]
  · intro h k hk1 hk2 hk3
    unfold first_confirmation_idx at h
    have hkmem : k ∈ List.range' (s + 1) (min (s + 6) df.len - (s + 1)) :=
      mem_range'_iff.mpr ⟨by omega, by omega⟩
    have hk := List.find?_eq_none.mp h k hkmem
    rw [← confCond_iff df k]
    exact hk

/-- Witness for C6: on the concrete series, the signal at index 3 is
confirmed at index 4, which the theorem certifies as the first qualifying
index of `(3, 8]`. -/
theorem first_confirmation_spec_witness :
    3 < 4 ∧ 4 ≤ 3 + 5 ∧ 4 < exampleDf.len ∧ confSpecCond exampleDf 4 ∧
      ∀ k, 3 < k → k < 4 → ¬ confSpecCond exampleDf k :=
  (first_confirmation_spec exampleDf 3 4).1 (by
    norm_num [first_confirmation_idx, confCond, exampleDf, List.range', VOL_MULT_MIN,
      List.find?])

/-- Claim C8: every candidate the per-coin pipeline emits has
`0 < stop_price < entry_price`; a candidate whose derived stop is
non-positive or at least its entry price is filtered out and never
emitted. -/
theorem candidate_stop_invariant (startDay endDay : Nat) (cid : String)
    (df : Df) (c : Candidate)
    (hc : c ∈ process_coin_entries startDay endDay cid df) :
    0 < c.stop ∧ c.stop < c.entry_px := by
  obtain ⟨cdate, ccoin, cpx, cstop, catr, cvol⟩ := c
  unfold process_coin_entries at hc
  rcases List.mem_filterMap.mp hc with ⟨sidx, hs, h⟩
  unfold candidateAt at h
  dsimp only at h
  repeat' split at h
  all_goals try exact Option.noConfusion h
  all_goals injection h with h'
  all_goals injection h' with h1 h2 h3 h4 h5 h6
  all_goals subst_vars
  all_goals push_neg at *
  all_goals assumption

/-- Witness for C8: the pipeline on the concrete series emits
`exampleCandidate`, whose stop lies strictly between 0 and its entry
price. -/
theorem candidate_stop_invariant_witness :
    0 < exampleCandidate.stop ∧ exampleCandidate.stop < exampleCandidate.entry_px :=
  candidate_stop_invariant 0 10 "exm" exampleDf exampleCandidate (by
    norm_num [process_coin_entries, candidateAt, find_signals, sigCond,
      first_confirmation_idx, confCond, exampleDf, exampleCandidate, List.range',
      List.filter, List.find?, List.filterMap, VOL_MULT_MIN, ONE_DAY_PUMP, TWO_DAY_PUMP,
      MCAP_MIN, MCAP_MAX, FEE_PER_SIDE, ATR_MULT_STOP])

/-- Python slicing with a nonnegative bound keeps at most that many
elements. -/
theorem pyTake_length_le_toNat {α : Type} (k : Int) (l : List α) (hk : 0 ≤ k) :
    (pyTake k l).length ≤ k.toNat := by
  unfold pyTake
  rw [if_pos hk, List.length_take]
  exact min_le_left _ _

/-- The v3 exit loop never grows the open-position list. -/
theorem processExitsV3_length_le (d : Nat) (l : List PositionV3) (eq : ℚ) :
    (processExitsV3 d l eq).1.length ≤ l.length := by
  induction l generalizing eq with
  | nil => simp [processExitsV3]
  | cons pos rest ih =>
    unfold processExitsV3
    dsimp only
    split
    · exact le_trans (ih _) (Nat.le_succ _)
    · simpa using ih _

/-- The v2 exit loop never grows the open-position list. -/
theorem processExitsV2_length_le (d : Nat) (l : List PositionV2) (eq : ℚ) :
    (processExitsV2 d l eq).1.length ≤ l.length := by
  induction l generalizing eq with
  | nil => simp [processExitsV2]
  | cons pos rest ih =>
    unfold processExitsV2
    dsimp only
    split
    · exact le_trans (ih _) (Nat.le_succ _)
    · simpa using ih _

/-- The v3 day step preserves the concurrency cap. -/
theorem stepV3_length_le (entries : List Candidate) (st : SimStateV3) (d : Nat)
    (h : st.open_positions.length ≤ MAX_CONCURRENT) :
    (stepV3 entries st d).open_positions.length ≤ MAX_CONCURRENT := by
  unfold stepV3
  dsimp only
  have hslots : (0:Int) ≤ (MAX_CONCURRENT : Int) - st.open_positions.length := by
    omega
  have h1 := pyTake_length_le_toNat ((MAX_CONCURRENT : Int) - st.open_positions.length)
    (entries.filter (fun e => e.date == d)) hslots
  have h2 := List.length_filterMap_le (mkPositionV3 st.equity d)
    (pyTake ((MAX_CONCURRENT : Int) - st.open_positions.length)
      (entries.filter (fun e => e.date == d)))
  have h3 := processExitsV3_length_le d
    (st.open_positions ++
      (pyTake ((MAX_CONCURRENT : Int) - st.open_positions.length)
        (entries.filter (fun e => e.date == d))).filterMap (mkPositionV3 st.equity d))
    st.equity
  rw [List.length_append] at h3
  omega

/-- The v2 day step preserves the concurrency cap. -/
theorem stepV2_length_le (entries : List Candidate) (st : SimStateV2) (d : Nat)
    (h : st.open_positions.length ≤ MAX_CONCURRENT) :
    (stepV2 entries st d).open_positions.length ≤ MAX_CONCURRENT := by
  unfold stepV2 admittedV2
  dsimp only
  have hslots : (0:Int) ≤ (MAX_CONCURRENT : Int) - st.open_positions.length := by
    omega
  have h1 := pyTake_length_le_toNat ((MAX_CONCURRENT : Int) - st.open_positions.length)
    (List.insertionSort volDesc (entries.filter (fun e => e.date == d))) hslots
  have h2 := List.length_filterMap_le (mkPositionV2 st.equity d)
    (pyTake ((MAX_CONCURRENT : Int) - st.open_positions.length)
      (List.insertionSort volDesc (entries.filter (fun e => e.date == d))))
  have h3 := processExitsV2_length_le d
    (st.open_positions ++
      (pyTake ((MAX_CONCURRENT : Int) - st.open_positions.length)
        (List.insertionSort volDesc (entries.filter (fun e => e.date == d)))).filterMap
        (mkPositionV2 st.equity d))
    st.equity
  rw [List.length_append] at h3
  omega

/-- Folding v3 day steps from any capped state stays capped. -/
theorem foldV3_length_le (entries : List Candidate) (ds : List Nat) (st : SimStateV3)
    (h : st.open_positions.length ≤ MAX_CONCURRENT) :
    ((ds.foldl (stepV3 entries) st)).open_positions.length ≤ MAX_CONCURRENT := by
  induction ds generalizing st with
  | nil => simpa
  | cons d rest ih => exact ih _ (stepV3_length_le entries st d h)

/-- Folding v2 day steps from any capped state stays capped. -/
theorem foldV2_length_le (entries : List Candidate) (ds : List Nat) (st : SimStateV2)
    (h : st.open_positions.length ≤ MAX_CONCURRENT) :
    ((ds.foldl (stepV2 entries) st)).open_positions.length ≤ MAX_CONCURRENT := by
  induction ds generalizing st with
  | nil => simpa
  | cons d rest ih => exact ih _ (stepV2_length_le entries st d h)

/-- Claim C4: for every candidate input and every list of simulated days
(hence after every day of any run — a run over any prefix of the window is
itself a run), the number of concurrently open positions of both the v2
and the v3 simulator never exceeds the concurrency cap
`MAX_CONCURRENT = 5`: admissions fill at most the free slots and exits
only remove. -/
theorem concurrency_cap (entries : List Candidate) (dates : List Nat) :
    (backtestV2 entries dates).open_positions.length ≤ MAX_CONCURRENT ∧
    (backtestV3 entries dates).open_positions.length ≤ MAX_CONCURRENT := by
  constructor
  · exact foldV2_length_le entries dates initStateV2 (by simp [initStateV2])
  · unfold backtestV3
    split
    · simp [initStateV3]
    · exact foldV3_length_le entries dates initStateV3 (by simp [initStateV3])

/-- What v3 admission yields: entry date is the admission day, zero bars
held, positive quantity, the candidate's entry price and coin. -/
theorem mkPositionV3_spec (equity : ℚ) (d : Nat) (ent : Candidate) (p : PositionV3)
    (h : mkPositionV3 equity d ent = some p) :
    p.entry_date = d ∧ p.bars_held = 0 ∧ 0 < p.qty ∧
      p.entry_px = ent.entry_px ∧ p.coin = ent.coin := by
  unfold mkPositionV3 at h
  dsimp only at h
  split at h
  · split at h
    · exact Option.noConfusion h
    · injection h with h
      subst h
      rename_i hq
      push_neg at hq
      exact ⟨rfl, rfl, hq, rfl, rfl⟩
  · simp at h

/-- What v2 admission yields, including the stored holding period. -/
theorem mkPositionV2_spec (equity : ℚ) (d : Nat) (ent : Candidate) (p : PositionV2)
    (h : mkPositionV2 equity d ent = some p) :
    p.entry_date = d ∧ p.bars_held = 0 ∧ 0 < p.qty ∧
      p.entry_px = ent.entry_px ∧ p.coin = ent.coin ∧ p.max_hold = HARD_HOLD_DAYS := by
  unfold mkPositionV2 at h
  dsimp only at h
  split at h
  · exact Option.noConfusion h
  · split at h
    · exact Option.noConfusion h
    · injection h with h
      subst h
      rename_i hq
      push_neg at hq
      exact ⟨rfl, rfl, hq, rfl, rfl, rfl⟩

/-- The v3 exit loop: positions that entered the day with
`entry_date + bars_held = d` and at most 9 bars leave it either still open
(one bar older, still at most 9 bars) or as a trade exiting exactly 9 days
after entry, dated `d`. -/
theorem processExitsV3_timing (d : Nat) (l : List PositionV3) (eq : ℚ)
    (h : ∀ p ∈ l, p.entry_date + p.bars_held = d ∧ p.bars_held ≤ 9) :
    (∀ p ∈ (processExitsV3 d l eq).1,
        p.entry_date + p.bars_held = d + 1 ∧ p.bars_held ≤ 9) ∧
    (∀ t ∈ (processExitsV3 d l eq).2.2, t.exit_date = t.entry_date + 9) := by
  induction l generalizing eq with
  | nil => simp [processExitsV3]
  | cons pos rest ih =>
    obtain ⟨hp, hrest⟩ := List.forall_mem_cons.mp h
    unfold processExitsV3
    dsimp only
    split
    · rename_i hexit
      simp only [HARD_HOLD_DAYS] at hexit
      refine ⟨(ih _ hrest).1, fun t ht => ?_⟩
      rcases List.mem_cons.mp ht with rfl | ht'
      · dsimp only
        omega
      · exact (ih _ hrest).2 t ht'
    · rename_i hstay
      simp only [HARD_HOLD_DAYS] at hstay
      refine ⟨fun p hp' => ?_, (ih _ hrest).2⟩
      rcases List.mem_cons.mp hp' with rfl | hp''
      · dsimp only
        omega
      · exact (ih _ hrest).1 p hp''

/-- The v2 exit loop: as for v3, under the invariant that every position
stores `max_hold = HARD_HOLD_DAYS`. -/
theorem processExitsV2_timing (d : Nat) (l : List PositionV2) (eq : ℚ)
    (h : ∀ p ∈ l, p.entry_date + p.bars_held = d ∧ p.bars_held ≤ 9 ∧
      p.max_hold = HARD_HOLD_DAYS) :
    (∀ p ∈ (processExitsV2 d l eq).1,
        p.entry_date + p.bars_held = d + 1 ∧ p.bars_held ≤ 9 ∧
          p.max_hold = HARD_HOLD_DAYS) ∧
    (∀ t ∈ (processExitsV2 d l eq).2.2, t.exit_date = t.entry_date + 9) := by
  induction l generalizing eq with
  | nil => simp [processExitsV2]
  | cons pos rest ih =>
    obtain ⟨hp, hrest⟩ := List.forall_mem_cons.mp h
    unfold processExitsV2
    dsimp only
    split
    · rename_i hexit
      rw [show ({ pos with bars_held := pos.bars_held + 1 } : PositionV2).max_hold
        = pos.max_hold from rfl, hp.2.2] at hexit
      simp only [HARD_HOLD_DAYS] at hexit
      refine ⟨(ih _ hrest).1, fun t ht => ?_⟩
      rcases List.mem_cons.mp ht with rfl | ht'
      · dsimp only
        omega
      · exact (ih _ hrest).2 t ht'
    · rename_i hstay
      rw [show ({ pos with bars_held := pos.bars_held + 1 } : PositionV2).max_hold
        = pos.max_hold from rfl, hp.2.2] at hstay
      simp only [HARD_HOLD_DAYS] at hstay
      refine ⟨fun p hp' => ?_, (ih _ hrest).2⟩
      rcases List.mem_cons.mp hp' with rfl | hp''
      · refine ⟨by dsimp only; omega, by dsimp only; omega, hp.2.2⟩
      · exact (ih _ hrest).1 p hp''

/-- The v3 day step advances the timing invariant by one day. -/
theorem stepV3_timing (entries : List Candidate) (st : SimStateV3) (d : Nat)
    (h : InvTimeV3 d st) : InvTimeV3 (d + 1) (stepV3 entries st d) := by
  obtain ⟨hopen, htr⟩ := h
  unfold stepV3 InvTimeV3
  dsimp only
  have hopened : ∀ p ∈ st.open_positions ++
      (pyTake ((MAX_CONCURRENT : Int) - st.open_positions.length)
        (entries.filter (fun e => e.date == d))).filterMap (mkPositionV3 st.equity d),
      p.entry_date + p.bars_held = d ∧ p.bars_held ≤ 9 := by
    intro p hp
    rcases List.mem_append.mp hp with hp | hp
    · exact hopen p hp
    · rcases List.mem_filterMap.mp hp with ⟨c, _, hc⟩
      obtain ⟨h1, h2, -, -, -⟩ := mkPositionV3_spec _ _ _ _ hc
      constructor <;> omega
  have key := processExitsV3_timing d _ st.equity hopened
  exact ⟨key.1, fun t ht => (List.mem_append.mp ht).elim (htr t) (key.2 t)⟩

/-- The v2 day step advances the timing invariant by one day. -/
theorem stepV2_timing (entries : List Candidate) (st : SimStateV2) (d : Nat)
    (h : InvTimeV2 d st) : InvTimeV2 (d + 1) (stepV2 entries st d) := by
  obtain ⟨hopen, htr⟩ := h
  unfold stepV2 InvTimeV2
  dsimp only
  have hopened : ∀ p ∈ st.open_positions ++
      (admittedV2 (entries.filter (fun e => e.date == d))
        ((MAX_CONCURRENT : Int) - st.open_positions.length)).filterMap
        (mkPositionV2 st.equity d),
      p.entry_date + p.bars_held = d ∧ p.bars_held ≤ 9 ∧
        p.max_hold = HARD_HOLD_DAYS := by
    intro p hp
    rcases List.mem_append.mp hp with hp | hp
    · exact hopen p hp
    · rcases List.mem_filterMap.mp hp with ⟨c, _, hc⟩
      obtain ⟨h1, h2, -, -, -, h6⟩ := mkPositionV2_spec _ _ _ _ hc
      refine ⟨by omega, by omega, h6⟩
  have key := processExitsV2_timing d _ st.equity hopened
  exact ⟨key.1, fun t ht => (List.mem_append.mp ht).elim (htr t) (key.2 t)⟩

/-- Folding consecutive v3 day steps advances the timing invariant. -/
theorem foldV3_timing (entries : List Candidate) (n : Nat) :
    ∀ (s : Nat) (st : SimStateV3), InvTimeV3 s st →
      InvTimeV3 (s + n) ((List.range' s n).foldl (stepV3 entries) st) := by
  induction n with
  | zero => intro s st h; simpa
  | succ n ih =>
    intro s st h
    rw [List.range'_succ]
    dsimp only [List.foldl]
    have := ih (s + 1) (stepV3 entries st s) (stepV3_timing entries st s h)
    rw [show s + (n + 1) = s + 1 + n from by omega]
    exact this

/-- Folding consecutive v2 day steps advances the timing invariant. -/
theorem foldV2_timing (entries : List Candidate) (n : Nat) :
    ∀ (s : Nat) (st : SimStateV2), InvTimeV2 s st →
      InvTimeV2 (s + n) ((List.range' s n).foldl (stepV2 entries) st) := by
  induction n with
  | zero => intro s st h; simpa
  | succ n ih =>
    intro s st h
    rw [List.range'_succ]
    dsimp only [List.foldl]
    have := ih (s + 1) (stepV2 entries st s) (stepV2_timing entries st s h)
    rw [show s + (n + 1) = s + 1 + n from by omega]
    exact this

/-- Claim C5: in both simulators, a position closes exactly when its
`bars_held` counter (incremented on the entry day itself) reaches
`HARD_HOLD_DAYS = 10` — the only exit trigger, the stored stop never being
evaluated: every logged trade of a run over the window
`[s, s+n)` exits exactly 9 days after its entry date, and every position
still open at the end entered so late that its 9-day exit date lies at or
beyond the end of the window (it exits neither earlier nor later). -/
theorem hold_period_exact (entries : List Candidate) (s n : Nat) :
    (∀ t ∈ (backtestV3 entries (window s n)).trades, t.exit_date = t.entry_date + 9) ∧
    (∀ p ∈ (backtestV3 entries (window s n)).open_positions, s + n ≤ p.entry_date + 9) ∧
    (∀ t ∈ (backtestV2 entries (window s n)).trades, t.exit_date = t.entry_date + 9) ∧
    (∀ p ∈ (backtestV2 entries (window s n)).open_positions, s + n ≤ p.entry_date + 9) := by
  have h3 : InvTimeV3 (s + n) (backtestV3 entries (window s n)) := by
    unfold backtestV3
    split
    · exact ⟨by simp [initStateV3], by simp [initStateV3]⟩
    · exact foldV3_timing entries n s initStateV3
        ⟨by simp [initStateV3], by simp [initStateV3]⟩
  have h2 : InvTimeV2 (s + n) (backtestV2 entries (window s n)) :=
    foldV2_timing entries n s initStateV2
      ⟨by simp [initStateV2], by simp [initStateV2]⟩
  refine ⟨h3.2, fun p hp => ?_, h2.2, fun p hp => ?_⟩
  · have := h3.1 p hp
    omega
  · have := h2.1 p hp
    omega

/-- Witness for C5: the single candidate entered on day 0 exits on day 9
of a 10-day run of the v3 simulator, and the theorem certifies
`exit_date = entry_date + 9` for that trade. -/
theorem hold_period_exact_witness :
    exampleTrade.exit_date = exampleTrade.entry_date + 9 :=
  (hold_period_exact exampleEntries 0 10).1 exampleTrade (by
    norm_num [backtestV3, exampleEntries, exampleTrade, window, List.range', stepV3,
      pyTake, mkPositionV3, processExitsV3, initStateV3, exitPnlV3, List.filter,
      List.filterMap, MAX_CONCURRENT, RISK_PCT, HARD_HOLD_DAYS])

/-- Python slicing only selects elements of the list. -/
theorem mem_of_mem_pyTake {α : Type} {k : Int} {l : List α} {a : α}
    (h : a ∈ pyTake k l) : a ∈ l := by
  unfold pyTake at h
  split at h <;> exact List.mem_of_mem_take h

/-- The v3 exit loop with positive positions: equity never decreases, the
surviving positions stay positive, and every logged trade has positive
P&L. -/
theorem processExitsV3_gain (d : Nat) (l : List PositionV3) (eq : ℚ)
    (h : ∀ p ∈ l, 0 < p.entry_px ∧ 0 < p.qty) :
    eq ≤ (processExitsV3 d l eq).2.1 ∧
    (∀ p ∈ (processExitsV3 d l eq).1, 0 < p.entry_px ∧ 0 < p.qty) ∧
    (∀ t ∈ (processExitsV3 d l eq).2.2, 0 < t.pnl) := by
  induction l generalizing eq with
  | nil => simp [processExitsV3]
  | cons pos rest ih =>
    obtain ⟨hp, hrest⟩ := List.forall_mem_cons.mp h
    unfold processExitsV3
    dsimp only
    have hpnl : 0 < exitPnlV3 pos.entry_px pos.qty := by
      unfold exitPnlV3
      have := mul_pos hp.1 hp.2
      nlinarith
    split
    · have key := ih (eq + exitPnlV3 pos.entry_px pos.qty) hrest
      refine ⟨le_trans (by linarith) key.1, key.2.1, fun t ht => ?_⟩
      rcases List.mem_cons.mp ht with rfl | ht'
      · exact hpnl
      · exact key.2.2 t ht'
    · have key := ih eq hrest
      refine ⟨key.1, fun p hp' => ?_, key.2.2⟩
      rcases List.mem_cons.mp hp' with rfl | hp''
      · exact hp
      · exact key.2.1 p hp''

/-- The v2 exit loop with positive positions: as for v3. -/
theorem processExitsV2_gain (d : Nat) (l : List PositionV2) (eq : ℚ)
    (h : ∀ p ∈ l, 0 < p.entry_px ∧ 0 < p.qty) :
    eq ≤ (processExitsV2 d l eq).2.1 ∧
    (∀ p ∈ (processExitsV2 d l eq).1, 0 < p.entry_px ∧ 0 < p.qty) ∧
    (∀ t ∈ (processExitsV2 d l eq).2.2, 0 < t.pnl) := by
  induction l generalizing eq with
  | nil => simp [processExitsV2]
  | cons pos rest ih =>
    obtain ⟨hp, hrest⟩ := List.forall_mem_cons.mp h
    unfold processExitsV2
    dsimp only
    have hpnl : 0 < exitPnlV2 pos.entry_px pos.qty := by
      unfold exitPnlV2
      have h1 : (0:ℚ) < pos.entry_px * (11/10) - pos.entry_px := by linarith [hp.1]
      exact mul_pos h1 hp.2
    split
    · have key := ih (eq + exitPnlV2 pos.entry_px pos.qty) hrest
      refine ⟨le_trans (by linarith) key.1, key.2.1, fun t ht => ?_⟩
      rcases List.mem_cons.mp ht with rfl | ht'
      · exact hpnl
      · exact key.2.2 t ht'
    · have key := ih eq hrest
      refine ⟨key.1, fun p hp' => ?_, key.2.2⟩
      rcases List.mem_cons.mp hp' with rfl | hp''
      · exact hp
      · exact key.2.1 p hp''

/-- The v3 day step preserves the profitability invariant when every
candidate has a positive entry price. -/
theorem stepV3_gain (entries : List Candidate) (st : SimStateV3) (d : Nat)
    (hentries : ∀ c ∈ entries, 0 < c.entry_px)
    (h : InvGainV3 st) : InvGainV3 (stepV3 entries st d) := by
  obtain ⟨heq, hopen, htr, hpair, hcurve⟩ := h
  unfold stepV3 InvGainV3
  dsimp only
  have hopened : ∀ p ∈ st.open_positions ++
      (pyTake ((MAX_CONCURRENT : Int) - st.open_positions.length)
        (entries.filter (fun e => e.date == d))).filterMap (mkPositionV3 st.equity d),
      0 < p.entry_px ∧ 0 < p.qty := by
    intro p hp
    rcases List.mem_append.mp hp with hp | hp
    · exact hopen p hp
    · rcases List.mem_filterMap.mp hp with ⟨c, hc1, hc2⟩
      obtain ⟨-, -, hq, hpx, -⟩ := mkPositionV3_spec _ _ _ _ hc2
      have hc : c ∈ entries := List.mem_of_mem_filter (mem_of_mem_pyTake hc1)
      exact ⟨hpx ▸ hentries c hc, hq⟩
  have key := processExitsV3_gain d _ st.equity hopened
  refine ⟨le_trans heq key.1, key.2.1,
    fun t ht => (List.mem_append.mp ht).elim (htr t) (key.2.2 t), ?_, ?_⟩
  · refine List.pairwise_append.mpr ⟨hpair, by simp, fun a ha b hb => ?_⟩
    simp only [List.mem_singleton] at hb
    subst hb
    exact le_trans (hcurve a ha).2 key.1
  · intro pt hpt
    rcases List.mem_append.mp hpt with hpt | hpt
    · exact ⟨(hcurve pt hpt).1, le_trans (hcurve pt hpt).2 key.1⟩
    · simp only [List.mem_singleton] at hpt
      subst hpt
      exact ⟨le_trans heq key.1, le_refl _⟩

/-- The v2 day step preserves the profitability invariant when every
candidate has a positive entry price. -/
theorem stepV2_gain (entries : List Candidate) (st : SimStateV2) (d : Nat)
    (hentries : ∀ c ∈ entries, 0 < c.entry_px)
    (h : InvGainV2 st) : InvGainV2 (stepV2 entries st d) := by
  obtain ⟨heq, hopen, htr, hpair, hcurve⟩ := h
  unfold stepV2 InvGainV2
  dsimp only
  have hopened : ∀ p ∈ st.open_positions ++
      (admittedV2 (entries.filter (fun e => e.date == d))
        ((MAX_CONCURRENT : Int) - st.open_positions.length)).filterMap
        (mkPositionV2 st.equity d),
      0 < p.entry_px ∧ 0 < p.qty := by
    intro p hp
    rcases List.mem_append.mp hp with hp | hp
    · exact hopen p hp
    · rcases List.mem_filterMap.mp hp with ⟨c, hc1, hc2⟩
      obtain ⟨-, -, hq, hpx, -, -⟩ := mkPositionV2_spec _ _ _ _ hc2
      have hc : c ∈ entries := by
        have := mem_of_mem_pyTake (show c ∈ pyTake _ _ from hc1)
        exact List.mem_of_mem_filter
          (((List.perm_insertionSort volDesc _).mem_iff).mp this)
      exact ⟨hpx ▸ hentries c hc, hq⟩
  have key := processExitsV2_gain d _ st.equity hopened
  refine ⟨le_trans heq key.1, key.2.1,
    fun t ht => (List.mem_append.mp ht).elim (htr t) (key.2.2 t), ?_, ?_⟩
  · refine List.pairwise_append.mpr ⟨hpair, by simp, fun a ha b hb => ?_⟩
    simp only [List.mem_singleton] at hb
    subst hb
    exact le_trans (hcurve a ha).2 key.1
  · intro pt hpt
    rcases List.mem_append.mp hpt with hpt | hpt
    · exact ⟨(hcurve pt hpt).1, le_trans (hcurve pt hpt).2 key.1⟩
    · simp only [List.mem_singleton] at hpt
      subst hpt
      exact ⟨le_trans heq key.1, le_refl _⟩

/-- Folding v3 day steps preserves the profitability invariant. -/
theorem foldV3_gain (entries : List Candidate) (ds : List Nat) (st : SimStateV3)
    (hentries : ∀ c ∈ entries, 0 < c.entry_px) (h : InvGainV3 st) :
    InvGainV3 (ds.foldl (stepV3 entries) st) := by
  induction ds generalizing st with
  | nil => simpa
  | cons d rest ih => exact ih _ (stepV3_gain entries st d hentries h)

/-- Folding v2 day steps preserves the profitability invariant. -/
theorem foldV2_gain (entries : List Candidate) (ds : List Nat) (st : SimStateV2)
    (hentries : ∀ c ∈ entries, 0 < c.entry_px) (h : InvGainV2 st) :
    InvGainV2 (ds.foldl (stepV2 entries) st) := by
  induction ds generalizing st with
  | nil => simpa
  | cons d rest ih => exact ih _ (stepV2_gain entries st d hentries h)

/-- Claim C10: when every input candidate satisfies the CandidateEntry
invariant `0 < stop < entry_px` (which the pipeline guarantees, claim C8),
every trade either simulator logs has strictly positive realized P&L — the
payoff is +10% of the positive entry price times the positive quantity —
and the equity curve is non-decreasing with every point at least the
initial equity `100`. -/
theorem trades_profitable_equity_monotone (entries : List Candidate)
    (dates : List Nat) (h : ∀ c ∈ entries, 0 < c.stop ∧ c.stop < c.entry_px) :
    (∀ t ∈ (backtestV3 entries dates).trades, 0 < t.pnl) ∧
    (backtestV3 entries dates).curve.Pairwise (fun a b => a.2 ≤ b.2) ∧
    (∀ pt ∈ (backtestV3 entries dates).curve, 100 ≤ pt.2) ∧
    (∀ t ∈ (backtestV2 entries dates).trades, 0 < t.pnl) ∧
    (backtestV2 entries dates).curve.Pairwise (fun a b => a.2 ≤ b.2) ∧
    (∀ pt ∈ (backtestV2 entries dates).curve, 100 ≤ pt.2) := by
  have hentries : ∀ c ∈ entries, 0 < c.entry_px := by
    intro c hc
    have := h c hc
    linarith [this.1, this.2]
  have hinit3 : InvGainV3 initStateV3 := by
    refine ⟨le_refl _, by simp [initStateV3], by simp [initStateV3],
      by simp [initStateV3], by simp [initStateV3]⟩
  have hinit2 : InvGainV2 initStateV2 := by
    refine ⟨le_refl _, by simp [initStateV2], by simp [initStateV2],
      by simp [initStateV2], by simp [initStateV2]⟩
  have h3 : InvGainV3 (backtestV3 entries dates) := by
    unfold backtestV3
    split
    · exact hinit3
    · exact foldV3_gain entries dates initStateV3 hentries hinit3
  have h2 : InvGainV2 (backtestV2 entries dates) :=
    foldV2_gain entries dates initStateV2 hentries hinit2
  exact ⟨h3.2.2.1, h3.2.2.2.1, fun pt hpt => (h3.2.2.2.2 pt hpt).1,
    h2.2.2.1, h2.2.2.2.1, fun pt hpt => (h2.2.2.2.2 pt hpt).1⟩

/-- Witness for C10: on the concrete one-candidate input (stop 5, entry
10) over a 10-day window, the theorem's conclusions hold. -/
theorem trades_profitable_equity_monotone_witness :
    (∀ t ∈ (backtestV3 exampleEntries (window 0 10)).trades, 0 < t.pnl) ∧
    (backtestV3 exampleEntries (window 0 10)).curve.Pairwise (fun a b => a.2 ≤ b.2) ∧
    (∀ pt ∈ (backtestV3 exampleEntries (window 0 10)).curve, 100 ≤ pt.2) ∧
    (∀ t ∈ (backtestV2 exampleEntries (window 0 10)).trades, 0 < t.pnl) ∧
    (backtestV2 exampleEntries (window 0 10)).curve.Pairwise (fun a b => a.2 ≤ b.2) ∧
    (∀ pt ∈ (backtestV2 exampleEntries (window 0 10)).curve, 100 ≤ pt.2) :=
  trades_profitable_equity_monotone exampleEntries (window 0 10) (by
    norm_num [exampleEntries])

/-- In a descending-sorted list, everything kept by `take` ranks at least
everything it leaves behind. -/
theorem take_sorted_rank {m : Nat} {l : List Candidate} {a b : Candidate}
    (hs : List.Sorted volDesc l) (ha : a ∈ l.take m) (hb : b ∈ l)
    (hb2 : b ∉ l.take m) : b.vol_mult ≤ a.vol_mult := by
  rw [← List.take_append_drop m l] at hb
  rcases List.mem_append.mp hb with hb' | hb'
  · exact absurd hb' hb2
  · exact hs.rel_of_mem_take_of_mem_drop ha hb'

/-- Claim C1 (amended): the v2 simulator ranks each day's candidates
descending by volume multiple before admission, so every candidate it
selects for admission has a volume multiple at least that of every
same-day candidate left unselected — with one free slot and two same-day
candidates of multiples 3.0 and 5.0, only the 5.0 one is selected. (The
v3 simulator instead admits same-day candidates in input order; see the
counterexample.) -/
theorem admittedV2_ranks_by_vol_mult (todays : List Candidate) (slots : Int)
    (a b : Candidate) (ha : a ∈ admittedV2 todays slots) (hb : b ∈ todays)
    (hb2 : b ∉ admittedV2 todays slots) : b.vol_mult ≤ a.vol_mult := by
  have hsorted : List.Sorted volDesc (List.insertionSort volDesc todays) :=
    List.sorted_insertionSort volDesc todays
  have hbs : b ∈ List.insertionSort volDesc todays :=
    ((List.perm_insertionSort volDesc todays).mem_iff).mpr hb
  unfold admittedV2 at ha hb2
  by_cases hk : (0:Int) ≤ slots
  · rw [pyTake, if_pos hk] at ha hb2
    exact take_sorted_rank hsorted ha hbs hb2
  · rw [pyTake, if_neg hk] at ha hb2
    exact take_sorted_rank hsorted ha hbs hb2

/-- Witness for the amended C1: with one slot and same-day candidates of
volume multiples 3.0 and 5.0, v2 selects the 5.0 candidate and leaves the
3.0 one out, and the theorem certifies the ranking. -/
theorem admittedV2_ranks_by_vol_mult_witness :
    candVol3.vol_mult ≤ candVol5.vol_mult :=
  admittedV2_ranks_by_vol_mult [candVol3, candVol5] 1 candVol5 candVol3
    (by norm_num [admittedV2, pyTake, List.insertionSort, List.orderedInsert,
      volDesc, candVol3, candVol5])
    (List.mem_cons_self candVol3 [candVol5])
    (by norm_num [admittedV2, pyTake, List.insertionSort, List.orderedInsert,
      volDesc, candVol3, candVol5, Candidate.mk.injEq])

/-- Claim C1 (counterexample to the claim as stated): the v3 simulator
does not rank same-day candidates by volume multiple before admission.
On `c1CexEntries` — six day-0 candidates, the first five with volume
multiple 3.0 and the last ("f") with the unique highest multiple 5.0 —
a one-day v3 run admits the first five in input order and leaves the
5.0 candidate out, contradicting "the admitted ones are exactly those
with the highest volume multiples". -/
theorem c1_counterexample :
    ((backtestV3 c1CexEntries (window 0 1)).open_positions.map (fun p => p.coin)
        = ["a", "b", "c", "d", "e"]) ∧
    ("f" ∉ (backtestV3 c1CexEntries (window 0 1)).open_positions.map
        (fun p => p.coin)) ∧
    (∀ c ∈ c1CexEntries, c.coin = "f" → c.vol_mult = 5) ∧
    (∀ c ∈ c1CexEntries, c.coin ≠ "f" → c.vol_mult = 3) := by
  have hrun : (backtestV3 c1CexEntries (window 0 1)).open_positions.map
      (fun p => p.coin) = ["a", "b", "c", "d", "e"] := by
    norm_num [backtestV3, c1CexEntries, window, List.range', stepV3, pyTake,
      mkPositionV3, processExitsV3, initStateV3, List.filter, List.filterMap,
      MAX_CONCURRENT, RISK_PCT, HARD_HOLD_DAYS]
  refine ⟨hrun, by rw [hrun]; simp, ?_, ?_⟩
  · intro c hc
    fin_cases hc <;> simp [c1CexEntries]
  · intro c hc
    fin_cases hc <;> simp [c1CexEntries]

/-- Curve dates of a v3 fold: each simulated day appends exactly one
equity point carrying that day's date. -/
theorem foldV3_curve (entries : List Candidate) (ds : List Nat) (st : SimStateV3) :
    ((ds.foldl (stepV3 entries) st)).curve.map Prod.fst
      = st.curve.map Prod.fst ++ ds := by
  induction ds generalizing st with
  | nil => simp
  | cons d rest ih =>
    dsimp only [List.foldl]
    rw [ih]
    simp [stepV3]

/-- Curve dates of a v2 fold: each simulated day appends exactly one
equity point carrying that day's date. -/
theorem foldV2_curve (entries : List Candidate) (ds : List Nat) (st : SimStateV2) :
    ((ds.foldl (stepV2 entries) st)).curve.map Prod.fst
      = st.curve.map Prod.fst ++ ds := by
  induction ds generalizing st with
  | nil => simp
  | cons d rest ih =>
    dsimp only [List.foldl]
    rw [ih]
    simp [stepV2]

/-- Claim C2 (amended): the v2 simulator's equity curve always has exactly
one point per calendar day of the window, in ascending date order with no
gaps; the v3 simulator produces such a curve only when the candidate input
is nonempty — on an empty candidate input its whole day loop is skipped
and the curve is empty. -/
theorem equity_curve_one_point_per_day (entries : List Candidate) (s n : Nat) :
    ((backtestV2 entries (window s n)).curve.map Prod.fst = window s n) ∧
    (entries ≠ [] →
      (backtestV3 entries (window s n)).curve.map Prod.fst = window s n) ∧
    (backtestV3 [] (window s n)).curve = [] := by
  refine ⟨?_, ?_, ?_⟩
  · unfold backtestV2
    rw [foldV2_curve]
    simp [initStateV2]
  · intro hne
    unfold backtestV3
    rw [if_neg (by simpa using hne), foldV3_curve]
    simp [initStateV3]
  · simp [backtestV3, initStateV3]

/-- Witness for the amended C2: a nonempty one-candidate input over a
3-day window yields a v3 curve dated exactly by the window. -/
theorem equity_curve_one_point_per_day_witness :
    (backtestV3 exampleEntries (window 0 3)).curve.map Prod.fst = window 0 3 :=
  (equity_curve_one_point_per_day exampleEntries 0 3).2.1 (by simp [exampleEntries])

/-- Claim C2 (counterexample to the claim as stated): on an empty
CandidateEntry input the v3 simulator's equity curve is empty, not one
point per day of the (3-day, nonempty) window. -/
theorem c2_counterexample :
    (backtestV3 [] (window 0 3)).curve = [] ∧ (window 0 3).length = 3 := by
  constructor
  · simp [backtestV3, initStateV3]
  · rfl

end CryptoBacktest
